import Mathlib

/-!
Verification development for the concurrent multi-feed RSS aggregator
(`scripts/rss.py`): a shallow embedding of its fetch / fan-out / merge /
render pipeline, together with theorems about the pipeline's behaviour.

Modelling conventions:
* Timestamps are abstract integers (seconds).  `datetime` values in the
  source are totally ordered and support `+ timedelta(days=1)`, which is
  exact arithmetic on naive datetimes, so `Int` with `+ 86400` is a
  faithful model of the comparisons the code performs.
* Network behaviour is an oracle `Nat → AttemptResult` giving, for each
  attempt index, what the `client.get` call for that attempt produces
  (a parsed feed, an HTTP status error, a timeout, ...).
* Observable effects are threaded through a `RunState`: the chronological
  output trace (stdout/stderr events in emission order), the shared
  `errors_list`, the backoff sleeps performed, and the number of HTTP
  requests issued.  Concurrent tasks of `asyncio.gather` are modelled as
  executed sequentially in task order; the claims under study do not
  depend on the interleaving order of independent tasks' messages.
-/

/-- Output event: a line printed to stdout (`out`) or stderr (`err`). -/
inductive OutEvent where
  | out (line : String)
  | err (line : String)
deriving DecidableEq, Repr

/-- Observable run state: the chronological output trace, the shared
`errors_list`, the sleeps performed by `asyncio.sleep`, and the number of
`client.get` calls issued. -/
structure RunState where
  trace : List OutEvent
  errorsList : List String
  sleeps : List Nat
  requestsMade : Nat
deriving DecidableEq, Repr

/-- Raw feed entry as produced by `feedparser.parse`: optional parsed
`published`/`updated` timestamps (absent attribute or `None` value both
map to `none`) and the optional `title`/`link`/`summary` fields. -/
structure Entry where
  published_parsed : Option Int
  updated_parsed : Option Int
  title : Option String
  link : Option String
  summary : Option String
deriving DecidableEq, Repr

/-- A `post_info` dictionary built by `get_feed_posts`. -/
structure Post where
  title : String
  link : String
  published : Int
  feed_title : String
  description : String
deriving DecidableEq, Repr

/-- Outcome of one `client.get` attempt inside `get_feed_posts`:
either a parsed feed (the feed's optional title plus its entries), or one
of the exceptions the source catches.  `timeoutExc` covers
`httpx.TimeoutException` and its subclasses; `requestError` covers the
remaining `httpx.RequestError`s, whose message may or may not mention a
timeout; `unexpected` covers the catch-all `except Exception`. -/
inductive AttemptResult where
  | success (feedTitle : Option String) (entries : List Entry)
  | httpStatusError (code : Nat)
  | timeoutExc (errorType : String) (msg : String)
  | connectError (msg : String)
  | unsupportedProtocol (msg : String)
  | tooManyRedirects (msg : String)
  | invalidURL (msg : String)
  | sslError (msg : String)
  | requestError (errorType : String) (msg : String)
  | unexpected (msg : String)

/-- Model of `parse_date_argument` on an already-validated date value:
`datetime.strptime` yields midnight of the given day, and the end of the
window is exactly one day (86400 seconds) later. -/
def parse_date_argument (date_obj : Int) : Int × Int :=
  (date_obj, date_obj + 86400)

/-- Resolution of an entry's publication time, mirroring the
`published_parsed` / `updated_parsed` attribute probing of the source:
prefer `published_parsed` when present and truthy, else fall back to
`updated_parsed`. -/
def resolvePublished (e : Entry) : Option Int :=
  match e.published_parsed with
  | some t => some t
  | none => e.updated_parsed

/-- Conversion of one raw entry into a `post_info`, keeping it only when
its resolved timestamp falls in the half-open window. -/
def entryWindowPost (start_date end_date : Int) (feedTitle : Option String)
    (e : Entry) : Option Post :=
  match resolvePublished e with
  | none => none
  | some t =>
    if start_date ≤ t ∧ t < end_date then
      some {
        title := e.title.getD "Без названия"
        link := e.link.getD ""
        published := t
        feed_title := feedTitle.getD "Неизвестная лента"
        description := e.summary.getD "" }
    else
      none

/-- Body of the `for entry in feed.entries` loop of `get_feed_posts`. -/
def entriesToPosts (start_date end_date : Int) (feedTitle : Option String)
    (entries : List Entry) : List Post :=
  entries.filterMap (entryWindowPost start_date end_date feedTitle)

/-- Error-message builder for the `httpx.HTTPStatusError` branch. -/
def httpErrorMessage (url : String) (code : Nat) : String :=
  if code = 429 then
    "Слишком много запросов к " ++ url ++ " (429). Пропускаем."
  else if code = 403 then
    "Доступ запрещен к " ++ url ++ " (403). Пропускаем."
  else if code = 404 then
    "Лента не найдена " ++ url ++ " (404). Пропускаем."
  else
    "HTTP ошибка " ++ toString code ++ " при загрузке " ++ url

/-- Terminal-error emission: in silent mode append to `errors_list`,
otherwise print to stderr. -/
def emitTerminal (silent : Bool) (msg : String) (st : RunState) : RunState :=
  if silent then
    { st with errorsList := st.errorsList ++ [msg] }
  else
    { st with trace := st.trace ++ [.err msg] }

/-- Retry-notice emission: printed to stderr only when not silent (the
retry branches never touch `errors_list`). -/
def emitRetry (silent : Bool) (msg : String) (st : RunState) : RunState :=
  if silent then st else { st with trace := st.trace ++ [.err msg] }

/-- Whether `needle` occurs as a contiguous run inside `hay`
(the semantics of Python's `in` on strings). -/
def containsSeq (needle : List Char) : List Char → Bool
  | [] => needle.isEmpty
  | c :: rest => needle.isPrefixOf (c :: rest) || containsSeq needle rest

/-- Test for the source's `"timeout" in str(e).lower()` condition. -/
def msgMentionsTimeout (msg : String) : Bool :=
  containsSeq "timeout".toList msg.toLower.toList

/-- Body of the retry loop of `get_feed_posts`.  `fuel` counts the loop
iterations still available (`max_retries + 1 - attempt` at the top-level
call); the `fuel = 0` case corresponds to the unreachable final
`return []` of the source.  Each iteration issues one `client.get`
(counted in `requestsMade`) and dispatches on the oracle's outcome for
this attempt, mirroring the source's `except` clauses branch by branch. -/
def fetchLoop (behavior : Nat → AttemptResult) (url : String)
    (start_date end_date : Int) (silent : Bool) (max_retries : Nat) :
    Nat → Nat → RunState → List Post × RunState
  | 0, _, st => ([], st)
  | fuel + 1, attempt, st₀ =>
    let st := { st₀ with requestsMade := st₀.requestsMade + 1 }
    match behavior attempt with
    | .success feedTitle entries =>
      (entriesToPosts start_date end_date feedTitle entries, st)
    | .httpStatusError code =>
      ([], emitTerminal silent (httpErrorMessage url code) st)
    | .timeoutExc errorType msg =>
      if attempt < max_retries then
        let wait := (attempt + 1) * 2
        let rmsg := "Таймаут (" ++ errorType ++ ") для " ++ url ++ ", попытка "
          ++ toString (attempt + 1) ++ "/" ++ toString (max_retries + 1)
          ++ ". Ждем " ++ toString wait ++ "с..."
        let st' := emitRetry silent rmsg st
        fetchLoop behavior url start_date end_date silent max_retries fuel
          (attempt + 1) { st' with sleeps := st'.sleeps ++ [wait] }
      else
        ([], emitTerminal silent
          ("Таймаут (" ++ errorType ++ ") при загрузке ленты " ++ url
            ++ " после " ++ toString (max_retries + 1) ++ " попыток: " ++ msg) st)
    | .connectError msg =>
      if attempt < max_retries then
        let wait := (attempt + 1) * 2
        let rmsg := "Ошибка подключения к " ++ url ++ ", попытка "
          ++ toString (attempt + 1) ++ "/" ++ toString (max_retries + 1)
          ++ ". Ждем " ++ toString wait ++ "с..."
        let st' := emitRetry silent rmsg st
        fetchLoop behavior url start_date end_date silent max_retries fuel
          (attempt + 1) { st' with sleeps := st'.sleeps ++ [wait] }
      else
        ([], emitTerminal silent
          ("Ошибка подключения к " ++ url ++ " после "
            ++ toString (max_retries + 1) ++ " попыток: " ++ msg) st)
    | .unsupportedProtocol msg =>
      ([], emitTerminal silent
        ("Неподдерживаемый протокол для " ++ url ++ ": " ++ msg) st)
    | .tooManyRedirects msg =>
      ([], emitTerminal silent
        ("Слишком много перенаправлений для " ++ url ++ ": " ++ msg) st)
    | .invalidURL msg =>
      ([], emitTerminal silent ("Некорректный URL " ++ url ++ ": " ++ msg) st)
    | .sslError msg =>
      if attempt < max_retries then
        let wait := (attempt + 1) * 2
        let rmsg := "SSL ошибка для " ++ url ++ ", попытка "
          ++ toString (attempt + 1) ++ "/" ++ toString (max_retries + 1)
          ++ ". Ждем " ++ toString wait ++ "с..."
        let st' := emitRetry silent rmsg st
        fetchLoop behavior url start_date end_date silent max_retries fuel
          (attempt + 1) { st' with sleeps := st'.sleeps ++ [wait] }
      else
        ([], emitTerminal silent
          ("SSL ошибка для " ++ url ++ " после " ++ toString (max_retries + 1)
            ++ " попыток: " ++ msg) st)
    | .requestError errorType msg =>
      if attempt < max_retries ∧ msgMentionsTimeout msg then
        let wait := (attempt + 1) * 2
        let rmsg := "Сетевая ошибка (" ++ errorType ++ ") для " ++ url
          ++ ", попытка " ++ toString (attempt + 1) ++ "/"
          ++ toString (max_retries + 1) ++ ". Ждем " ++ toString wait ++ "с..."
        let st' := emitRetry silent rmsg st
        fetchLoop behavior url start_date end_date silent max_retries fuel
          (attempt + 1) { st' with sleeps := st'.sleeps ++ [wait] }
      else
        ([], emitTerminal silent
          ("Сетевая ошибка (" ++ errorType ++ ") при загрузке ленты " ++ url
            ++ ": " ++ msg) st)
    | .unexpected msg =>
      ([], emitTerminal silent
        ("Неожиданная ошибка при обработке ленты " ++ url ++ ": " ++ msg) st)

/-- Model of `get_feed_posts`: run the retry loop for at most
`max_retries + 1` attempts starting at attempt 0.  It always returns a
value — a list of in-window posts plus the updated state — for every
behaviour of the network oracle; no branch escapes as an exception. -/
def get_feed_posts (behavior : Nat → AttemptResult) (url : String)
    (start_date end_date : Int) (silent : Bool) (st : RunState)
    (max_retries : Nat := 2) : List Post × RunState :=
  fetchLoop behavior url start_date end_date silent max_retries
    (max_retries + 1) 0 st

/-- Scan to the character after the next closing angle bracket, if any. -/
def skipToGt : List Char → Option (List Char)
  | [] => none
  | c :: rest => if c = '>' then some rest else skipToGt rest

/-- Attempt to match the regex fragment of the source's tag-stripping
substitution after an opening angle bracket: at least one character other
than a closing bracket, followed by a closing bracket.  Returns the
remainder of the input after the matched tag. -/
def findTagEnd : List Char → Option (List Char)
  | [] => none
  | c :: rest => if c = '>' then none else skipToGt rest

theorem skipToGt_length : ∀ l r, skipToGt l = some r → r.length < l.length := by
  intro l
  induction l with
  | nil => intro r h; simp [skipToGt] at h
  | cons c rest ih =>
    intro r h
    simp only [skipToGt] at h
    by_cases hc : c = '>'
    · rw [if_pos hc] at h
      injection h with h₂
      subst h₂
      simp only [List.length_cons]
      omega
    · rw [if_neg hc] at h
      have := ih r h
      simp only [List.length_cons]
      omega

theorem findTagEnd_length : ∀ l r, findTagEnd l = some r → r.length < l.length := by
  intro l r h
  match l with
  | [] => simp [findTagEnd] at h
  | c :: rest =>
    simp only [findTagEnd] at h
    by_cases hc : c = '>'
    · rw [if_pos hc] at h
      exact absurd h (by simp)
    · rw [if_neg hc] at h
      have := skipToGt_length rest r h
      simp only [List.length_cons]
      omega

/-- Model of the repeated leftmost application of the source's
tag-removing substitution over the character sequence: a tag is an
opening angle bracket, one or more characters none of which is a closing
bracket, then a closing bracket; matched tags are removed, everything
else is kept.  The `fuel` argument only bounds the recursion so that it
is structural: every step consumes at least one character of the input
(`findTagEnd_length`), so any `fuel` at least the input length never
reaches the `0` case. -/
def stripTagsAux : Nat → List Char → List Char
  | _, [] => []
  | 0, l => l
  | fuel + 1, c :: rest =>
    if c = '<' then
      match findTagEnd rest with
      | some rest' => stripTagsAux fuel rest'
      | none => c :: stripTagsAux fuel rest
    else
      c :: stripTagsAux fuel rest

/-- Model of the source's `re.sub` HTML-tag cleanup on a string. -/
def stripHtmlTags (s : String) : String :=
  String.mk (stripTagsAux s.toList.length s.toList)

/-- Description processing of the markdown renderer: strip HTML tags,
then truncate to the first 300 characters and append an ellipsis when the
cleaned description is longer than 300 characters. -/
def truncatedDescription (desc : String) : String :=
  let clean := stripHtmlTags desc
  if clean.length > 300 then String.mk (clean.toList.take 300) ++ "..."
  else clean

/-- Rendering of a single post inside `format_posts_markdown`. -/
def renderPostMarkdown (post : Post) : String :=
  "### " ++ post.title ++ " (" ++ post.feed_title ++ ")\n\n"
    ++ (if post.link ≠ "" then "🔗 " ++ post.link ++ "\n\n" else "")
    ++ (if post.description ≠ "" then
          "💬 " ++ truncatedDescription post.description ++ "\n\n"
        else "")
    ++ "---\n\n"

/-- Model of `format_posts_markdown`. -/
def format_posts_markdown (posts : List Post) (date_str : String) : String :=
  if posts.isEmpty then
    "## Посты за " ++ date_str
      ++ "\n\nВсего постов: 0\n\nПосты за указанную дату не найдены."
  else
    "## Посты за " ++ date_str ++ "\n\n"
      ++ "Всего постов: " ++ toString posts.length ++ "\n\n"
      ++ "----\n\n"
      ++ String.join (posts.map renderPostMarkdown)

/-- Two-digit zero padding for the hour/minute display. -/
def pad2 (n : Int) : String :=
  (if n < 10 then "0" else "") ++ toString n

/-- Display model of `strftime` hour and minute on an abstract
seconds-since-midnight-zero timestamp. -/
def formatHM (t : Int) : String :=
  pad2 ((t / 3600) % 24) ++ ":" ++ pad2 ((t / 60) % 60)

/-- Description truncation of the plain-text renderer: first 200 raw
characters, with an ellipsis when the original is longer. -/
def plainDescription (desc : String) : String :=
  let d := String.mk (desc.toList.take 200)
  if desc.length > 200 then d ++ "..." else d

/-- Stdout lines printed for a single post by the plain-text report. -/
def renderPostPlain (post : Post) : List OutEvent :=
  [.out ("\n[" ++ formatHM post.published ++ "] " ++ post.feed_title),
   .out ("  " ++ post.title)]
    ++ (if post.link ≠ "" then [.out ("  Ссылка: " ++ post.link)] else [])
    ++ (if post.description ≠ "" then
          [.out ("  Описание: " ++ plainDescription post.description)]
        else [])

/-- A fan-out task of `read_posts_for_date`: either a normal
`get_feed_posts` invocation for a feed (with its network behaviour
oracle), or a task whose coroutine escapes with an exception, the case
`asyncio.gather(..., return_exceptions=True)` turns into an exception
value in the results list. -/
inductive FetchTask where
  | run (title url : String) (behavior : Nat → AttemptResult)
  | raises (title url : String) (msg : String)

/-- Feed title of a task (used by the queueing progress message). -/
def FetchTask.title : FetchTask → String
  | .run t _ _ => t
  | .raises t _ _ => t

/-- Whether the task is a normal `get_feed_posts` invocation. -/
def FetchTask.isRun : FetchTask → Bool
  | .run _ _ _ => true
  | .raises _ _ _ => false

/-- Initial run state: empty trace, empty `errors_list`, no sleeps, no
requests issued. -/
def initState : RunState := ⟨[], [], [], 0⟩

/-- Execution of one gathered task: a `run` task produces the value of
`get_feed_posts` (wrapped in `Sum.inl`), an escaping exception becomes a
`Sum.inr` result, exactly as `asyncio.gather` with
`return_exceptions=True` reports it. -/
def runTask (start_date end_date : Int) (silent : Bool) (st : RunState) :
    FetchTask → (List Post ⊕ String) × RunState
  | .run _ url behavior =>
    let r := get_feed_posts behavior url start_date end_date silent st
    (.inl r.1, r.2)
  | .raises _ _ msg => (.inr msg, st)

/-- Results list of `asyncio.gather` over all fetch tasks, with the
shared state threaded through in task order. -/
def gatherTasks (start_date end_date : Int) (silent : Bool) :
    List FetchTask → RunState → List (List Post ⊕ String) × RunState
  | [], st => ([], st)
  | t :: ts, st =>
    let r := runTask start_date end_date silent st t
    let rs := gatherTasks start_date end_date silent ts r.2
    (r.1 :: rs.1, rs.2)

/-- Outcome of a single task viewed in isolation (run against the
initial state).  The fan-out theorems show each gathered result equals
the outcome of its own task alone, independent of the other tasks. -/
def taskOutcome (start_date end_date : Int) (silent : Bool)
    (t : FetchTask) : List Post ⊕ String :=
  (runTask start_date end_date silent initState t).1

/-- The `for result in results` collection loop of
`read_posts_for_date`: list results extend `all_posts`, exception
results are reported (to `errors_list` in silent mode, stderr
otherwise). -/
def collectResults (silent : Bool) :
    List (List Post ⊕ String) → List Post → RunState → List Post × RunState
  | [], acc, st => (acc, st)
  | .inl ps :: rs, acc, st => collectResults silent rs (acc ++ ps) st
  | .inr m :: rs, acc, st =>
    collectResults silent rs acc
      (emitTerminal silent ("Ошибка при обработке ленты: " ++ m) st)

/-- End-of-report error summary, printed to stderr only in silent mode
and only when errors were collected. -/
def errorsEpilogue (silent : Bool) (st : RunState) : RunState :=
  if silent ∧ st.errorsList ≠ [] then
    { st with trace := st.trace ++ [.err "\nОшибки обработки лент:"]
        ++ st.errorsList.map (fun e => .err ("  " ++ e)) }
  else st

/-- Fifty-dash separator printed by the progress header
(Python's dash character repeated 50 times). -/
def dashesLine : String := String.mk (List.replicate 50 '-')

/-- Fifty-equals separator printed before the plain-text listing
(Python's equals character repeated 50 times). -/
def equalsLine : String := String.mk (List.replicate 50 '=')

/-- Report-rendering tail of `read_posts_for_date`, applied to the
sorted posts: markdown mode prints the formatted report then the error
epilogue; plain mode prints the count header (unless silent), then
either the no-posts message or every post's lines, then the error
epilogue. -/
def renderReport (posts : List Post) (date_str : String)
    (silent markdown : Bool) (st : RunState) : RunState :=
  if markdown then
    errorsEpilogue silent
      { st with trace := st.trace
          ++ [.out (format_posts_markdown posts date_str)] }
  else
    let st₁ := if silent then st else
      { st with trace := st.trace
          ++ [.out ("\nНайдено " ++ toString posts.length ++ " постов за "
                ++ date_str ++ ":"),
              .out equalsLine] }
    if posts.isEmpty then
      errorsEpilogue silent
        { st₁ with trace := st₁.trace
            ++ [.out "Посты за указанную дату не найдены."] }
    else
      errorsEpilogue silent
        { st₁ with trace := st₁.trace ++ (posts.map renderPostPlain).flatten }

/-- Model of `read_posts_for_date`: compute the window, print the
progress header and queueing messages (unless silent), gather all fetch
tasks, collect their results, sort the merged posts by publication time
(Python's stable `list.sort`, modelled by `List.mergeSort`), and render
the report.  Returns the sorted merged posts and the final state. -/
def read_posts_for_date (tasks : List FetchTask) (date_obj : Int)
    (date_str : String) (silent markdown : Bool) : List Post × RunState :=
  let w := parse_date_argument date_obj
  let st₁ := if silent then initState else
    { initState with trace :=
        [.out ("Поиск постов за " ++ date_str ++ "..."), .out dashesLine] }
  let st₂ := if silent then st₁ else
    { st₁ with trace := st₁.trace
        ++ tasks.map (fun t => .out ("Добавляем в очередь: " ++ t.title)) }
  let st₃ := if silent then st₂ else
    { st₂ with trace := st₂.trace
        ++ [.out ("Загружаем " ++ toString tasks.length
              ++ " RSS лент параллельно...")] }
  let gathered := gatherTasks w.1 w.2 silent tasks st₃
  let collected := collectResults silent gathered.1 [] gathered.2
  let sorted := collected.1.mergeSort
    (fun a b => decide (a.published ≤ b.published))
  (sorted, renderReport sorted date_str silent markdown collected.2)

/-! Basic lemmas about the fetcher. -/

theorem entryWindowPost_window (sd ed : Int) (ft : Option String) (e : Entry)
    (p : Post) (h : entryWindowPost sd ed ft e = some p) :
    sd ≤ p.published ∧ p.published < ed := by
  unfold entryWindowPost at h
  cases hr : resolvePublished e with
  | none =>
    simp only [hr] at h
    exact absurd h (by simp)
  | some t =>
    simp only [hr] at h
    by_cases hw : sd ≤ t ∧ t < ed
    · rw [if_pos hw] at h
      injection h with h₂
      subst h₂
      exact hw
    · rw [if_neg hw] at h
      simp at h

theorem entriesToPosts_window (sd ed : Int) (ft : Option String)
    (es : List Entry) (p : Post) (h : p ∈ entriesToPosts sd ed ft es) :
    sd ≤ p.published ∧ p.published < ed := by
  unfold entriesToPosts at h
  rw [List.mem_filterMap] at h
  obtain ⟨e, -, he⟩ := h
  exact entryWindowPost_window sd ed ft e p he

theorem fetchLoop_fst_mem_window (b : Nat → AttemptResult) (u : String)
    (sd ed : Int) (silent : Bool) (mr : Nat) :
    ∀ fuel att st p, p ∈ (fetchLoop b u sd ed silent mr fuel att st).1 →
      sd ≤ p.published ∧ p.published < ed := by
  intro fuel
  induction fuel with
  | zero => intro att st p hp; simp [fetchLoop] at hp
  | succ n ih =>
    intro att st p hp
    simp only [fetchLoop] at hp
    cases hb : b att
    case success ft es =>
      simp only [hb] at hp
      exact entriesToPosts_window sd ed ft es p hp
    case httpStatusError code =>
      simp only [hb] at hp
      simp at hp
    case timeoutExc et m =>
      simp only [hb] at hp
      split at hp
      · exact ih _ _ _ hp
      · simp at hp
    case connectError m =>
      simp only [hb] at hp
      split at hp
      · exact ih _ _ _ hp
      · simp at hp
    case unsupportedProtocol m =>
      simp only [hb] at hp
      simp at hp
    case tooManyRedirects m =>
      simp only [hb] at hp
      simp at hp
    case invalidURL m =>
      simp only [hb] at hp
      simp at hp
    case sslError m =>
      simp only [hb] at hp
      split at hp
      · exact ih _ _ _ hp
      · simp at hp
    case requestError et m =>
      simp only [hb] at hp
      split at hp
      · exact ih _ _ _ hp
      · simp at hp
    case unexpected m =>
      simp only [hb] at hp
      simp at hp

theorem fetchLoop_fst_irrel (b : Nat → AttemptResult) (u : String)
    (sd ed : Int) (silent : Bool) (mr : Nat) :
    ∀ fuel att st st',
      (fetchLoop b u sd ed silent mr fuel att st).1
        = (fetchLoop b u sd ed silent mr fuel att st').1 := by
  intro fuel
  induction fuel with
  | zero => intro att st st'; simp [fetchLoop]
  | succ n ih =>
    intro att st st'
    simp only [fetchLoop]
    cases hb : b att
    case success ft es => simp only [hb]
    case httpStatusError code => simp only [hb]
    case timeoutExc et m =>
      simp only [hb]
      by_cases hc : att < mr
      · simp only [if_pos hc]
        exact ih _ _ _
      · simp only [if_neg hc]
    case connectError m =>
      simp only [hb]
      by_cases hc : att < mr
      · simp only [if_pos hc]
        exact ih _ _ _
      · simp only [if_neg hc]
    case unsupportedProtocol m => simp only [hb]
    case tooManyRedirects m => simp only [hb]
    case invalidURL m => simp only [hb]
    case sslError m =>
      simp only [hb]
      by_cases hc : att < mr
      · simp only [if_pos hc]
        exact ih _ _ _
      · simp only [if_neg hc]
    case requestError et m =>
      simp only [hb]
      by_cases hc : att < mr ∧ msgMentionsTimeout m
      · simp only [if_pos hc]
        exact ih _ _ _
      · simp only [if_neg hc]
    case unexpected m => simp only [hb]

@[simp] theorem emitTerminal_sleeps (s : Bool) (m : String) (st : RunState) :
    (emitTerminal s m st).sleeps = st.sleeps := by
  unfold emitTerminal; split <;> rfl

@[simp] theorem emitTerminal_requests (s : Bool) (m : String) (st : RunState) :
    (emitTerminal s m st).requestsMade = st.requestsMade := by
  unfold emitTerminal; split <;> rfl

@[simp] theorem emitTerminal_false_eq (m : String) (st : RunState) :
    emitTerminal false m st = { st with trace := st.trace ++ [.err m] } := rfl

@[simp] theorem emitTerminal_true_eq (m : String) (st : RunState) :
    emitTerminal true m st = { st with errorsList := st.errorsList ++ [m] } := rfl

@[simp] theorem emitRetry_false_eq (m : String) (st : RunState) :
    emitRetry false m st = { st with trace := st.trace ++ [.err m] } := rfl

@[simp] theorem emitRetry_true_eq (m : String) (st : RunState) :
    emitRetry true m st = st := rfl

/-- The failure kinds on which the source retries: timeouts, connection
failures, TLS failures, and the generic network error whose message
mentions a timeout (caught by the `httpx.RequestError` clause, whose
retry condition checks the message). -/
def isTransient : AttemptResult → Bool
  | .timeoutExc _ _ => true
  | .connectError _ => true
  | .sslError _ => true
  | .requestError _ m => msgMentionsTimeout m
  | _ => false

theorem fetchLoop_false_errorsList (b : Nat → AttemptResult) (u : String)
    (sd ed : Int) (mr : Nat) :
    ∀ fuel att st,
      (fetchLoop b u sd ed false mr fuel att st).2.errorsList
        = st.errorsList := by
  intro fuel
  induction fuel with
  | zero => intro att st; simp [fetchLoop]
  | succ n ih =>
    intro att st
    cases hb : b att
    case success ft es => simp [fetchLoop, hb]
    case httpStatusError code => simp [fetchLoop, hb]
    case timeoutExc et m =>
      simp only [fetchLoop, hb]
      by_cases hc : att < mr
      · simp only [if_pos hc]
        rw [ih]
        simp
      · simp only [if_neg hc]
        simp
    case connectError m =>
      simp only [fetchLoop, hb]
      by_cases hc : att < mr
      · simp only [if_pos hc]
        rw [ih]
        simp
      · simp only [if_neg hc]
        simp
    case unsupportedProtocol m => simp [fetchLoop, hb]
    case tooManyRedirects m => simp [fetchLoop, hb]
    case invalidURL m => simp [fetchLoop, hb]
    case sslError m =>
      simp only [fetchLoop, hb]
      by_cases hc : att < mr
      · simp only [if_pos hc]
        rw [ih]
        simp
      · simp only [if_neg hc]
        simp
    case requestError et m =>
      simp only [fetchLoop, hb]
      by_cases hc : att < mr ∧ msgMentionsTimeout m
      · simp only [if_pos hc]
        rw [ih]
        simp
      · simp only [if_neg hc]
        simp
    case unexpected m => simp [fetchLoop, hb]

theorem fetchLoop_true_trace (b : Nat → AttemptResult) (u : String)
    (sd ed : Int) (mr : Nat) :
    ∀ fuel att st,
      (fetchLoop b u sd ed true mr fuel att st).2.trace = st.trace := by
  intro fuel
  induction fuel with
  | zero => intro att st; simp [fetchLoop]
  | succ n ih =>
    intro att st
    cases hb : b att
    case success ft es => simp [fetchLoop, hb]
    case httpStatusError code => simp [fetchLoop, hb]
    case timeoutExc et m =>
      simp only [fetchLoop, hb]
      by_cases hc : att < mr
      · simp only [if_pos hc]
        rw [ih]
        simp
      · simp only [if_neg hc]
        simp
    case connectError m =>
      simp only [fetchLoop, hb]
      by_cases hc : att < mr
      · simp only [if_pos hc]
        rw [ih]
        simp
      · simp only [if_neg hc]
        simp
    case unsupportedProtocol m => simp [fetchLoop, hb]
    case tooManyRedirects m => simp [fetchLoop, hb]
    case invalidURL m => simp [fetchLoop, hb]
    case sslError m =>
      simp only [fetchLoop, hb]
      by_cases hc : att < mr
      · simp only [if_pos hc]
        rw [ih]
        simp
      · simp only [if_neg hc]
        simp
    case requestError et m =>
      simp only [fetchLoop, hb]
      by_cases hc : att < mr ∧ msgMentionsTimeout m
      · simp only [if_pos hc]
        rw [ih]
        simp
      · simp only [if_neg hc]
        simp
    case unexpected m => simp [fetchLoop, hb]

theorem fetchLoop_sleeps_or_transient (b : Nat → AttemptResult) (u : String)
    (sd ed : Int) (silent : Bool) (mr : Nat) :
    ∀ fuel att st,
      (fetchLoop b u sd ed silent mr fuel att st).2.sleeps = st.sleeps
        ∨ ∃ i, att ≤ i ∧ i < mr ∧ isTransient (b i) = true := by
  intro fuel
  induction fuel with
  | zero => intro att st; left; simp [fetchLoop]
  | succ n ih =>
    intro att st
    cases hb : b att
    case success ft es => left; simp [fetchLoop, hb]
    case httpStatusError code => left; simp [fetchLoop, hb]
    case timeoutExc et m =>
      by_cases hc : att < mr
      · right
        exact ⟨att, Nat.le_refl att, hc, by rw [hb]; rfl⟩
      · left
        simp only [fetchLoop, hb, if_neg hc]
        simp
    case connectError m =>
      by_cases hc : att < mr
      · right
        exact ⟨att, Nat.le_refl att, hc, by rw [hb]; rfl⟩
      · left
        simp only [fetchLoop, hb, if_neg hc]
        simp
    case unsupportedProtocol m => left; simp [fetchLoop, hb]
    case tooManyRedirects m => left; simp [fetchLoop, hb]
    case invalidURL m => left; simp [fetchLoop, hb]
    case sslError m =>
      by_cases hc : att < mr
      · right
        exact ⟨att, Nat.le_refl att, hc, by rw [hb]; rfl⟩
      · left
        simp only [fetchLoop, hb, if_neg hc]
        simp
    case requestError et m =>
      by_cases hc : att < mr ∧ msgMentionsTimeout m
      · right
        refine ⟨att, Nat.le_refl att, hc.1, ?_⟩
        rw [hb]
        simpa [isTransient] using hc.2
      · left
        simp only [fetchLoop, hb, if_neg hc]
        simp
    case unexpected m => left; simp [fetchLoop, hb]

/-! Lemmas about the fan-out coordinator. -/

theorem runTask_fst_irrel (sd ed : Int) (s : Bool) (st st' : RunState)
    (t : FetchTask) : (runTask sd ed s st t).1 = (runTask sd ed s st' t).1 := by
  cases t with
  | run ttl url b =>
    simp only [runTask, get_feed_posts]
    exact congrArg Sum.inl (fetchLoop_fst_irrel b url sd ed s 2 3 0 st st')
  | raises ttl url m => rfl

theorem gather_fst_irrel (sd ed : Int) (s : Bool) :
    ∀ ts (st st' : RunState),
      (gatherTasks sd ed s ts st).1 = (gatherTasks sd ed s ts st').1 := by
  intro ts
  induction ts with
  | nil => intro st st'; rfl
  | cons t ts ih =>
    intro st st'
    simp only [gatherTasks]
    rw [runTask_fst_irrel sd ed s st st' t]
    exact congrArg _ (ih _ _)

theorem gather_get? (sd ed : Int) (s : Bool) :
    ∀ ts (st : RunState) (i : Nat),
      (gatherTasks sd ed s ts st).1[i]?
        = (ts[i]?).map (taskOutcome sd ed s) := by
  intro ts
  induction ts with
  | nil => intro st i; simp [gatherTasks]
  | cons t ts ih =>
    intro st i
    cases i with
    | zero =>
      simp only [gatherTasks, List.getElem?_cons_zero, Option.map_some']
      exact congrArg some (runTask_fst_irrel sd ed s st initState t)
    | succ n =>
      simp only [gatherTasks, List.getElem?_cons_succ]
      exact ih _ n

theorem gather_false_errorsList (sd ed : Int) :
    ∀ ts (st : RunState),
      (gatherTasks sd ed false ts st).2.errorsList = st.errorsList := by
  intro ts
  induction ts with
  | nil => intro st; rfl
  | cons t ts ih =>
    intro st
    simp only [gatherTasks]
    rw [ih]
    cases t with
    | run ttl url b =>
      simp only [runTask, get_feed_posts]
      exact fetchLoop_false_errorsList b url sd ed 2 3 0 st
    | raises ttl url m => rfl

theorem gather_true_trace (sd ed : Int) :
    ∀ ts (st : RunState),
      (gatherTasks sd ed true ts st).2.trace = st.trace := by
  intro ts
  induction ts with
  | nil => intro st; rfl
  | cons t ts ih =>
    intro st
    simp only [gatherTasks]
    rw [ih]
    cases t with
    | run ttl url b =>
      simp only [runTask, get_feed_posts]
      exact fetchLoop_true_trace b url sd ed 2 3 0 st
    | raises ttl url m => rfl

theorem gather_append (sd ed : Int) (s : Bool) :
    ∀ (l₁ l₂ : List FetchTask) (st : RunState),
      gatherTasks sd ed s (l₁ ++ l₂) st
        = ((gatherTasks sd ed s l₁ st).1
            ++ (gatherTasks sd ed s l₂ (gatherTasks sd ed s l₁ st).2).1,
           (gatherTasks sd ed s l₂ (gatherTasks sd ed s l₁ st).2).2) := by
  intro l₁
  induction l₁ with
  | nil => intro l₂ st; simp [gatherTasks]
  | cons t ts ih =>
    intro l₂ st
    simp only [List.cons_append, gatherTasks]
    simp only [List.append_eq]
    rw [ih]

theorem gather_inl_window (sd ed : Int) (s : Bool) :
    ∀ ts (st : RunState) (ps : List Post),
      Sum.inl ps ∈ (gatherTasks sd ed s ts st).1 →
      ∀ p ∈ ps, sd ≤ p.published ∧ p.published < ed := by
  intro ts
  induction ts with
  | nil => intro st ps hmem; simp [gatherTasks] at hmem
  | cons t ts ih =>
    intro st ps hmem p hp
    simp only [gatherTasks, List.mem_cons] at hmem
    rcases hmem with hhd | htl
    · cases t with
      | run ttl url b =>
        simp only [runTask] at hhd
        have hps : ps = (get_feed_posts b url sd ed s st).1 := by
          injection hhd.symm with h₂
          exact h₂.symm
        rw [hps] at hp
        exact fetchLoop_fst_mem_window b url sd ed s 2 3 0 st p hp
      | raises ttl url m => simp [runTask] at hhd
    · exact ih _ ps htl p hp

theorem gather_all_inl (sd ed : Int) (s : Bool) :
    ∀ ts (st : RunState), (∀ t ∈ ts, t.isRun = true) →
      ∀ r ∈ (gatherTasks sd ed s ts st).1, ∃ ps, r = Sum.inl ps := by
  intro ts
  induction ts with
  | nil => intro st _ r hr; simp [gatherTasks] at hr
  | cons t ts ih =>
    intro st hall r hr
    simp only [gatherTasks, List.mem_cons] at hr
    rcases hr with hhd | htl
    · cases t with
      | run ttl url b =>
        exact ⟨(get_feed_posts b url sd ed s st).1, hhd⟩
      | raises ttl url m =>
        have := hall _ (List.mem_cons_self _ _)
        simp [FetchTask.isRun] at this
    · exact ih _ (fun x hx => hall x (List.mem_cons_of_mem _ hx)) r htl

/-! Lemmas about the result-collection loop and the renderer. -/

theorem collect_fst_irrel (s : Bool) :
    ∀ rs (acc : List Post) (st st' : RunState),
      (collectResults s rs acc st).1 = (collectResults s rs acc st').1 := by
  intro rs
  induction rs with
  | nil => intro acc st st'; rfl
  | cons r rs ih =>
    intro acc st st'
    cases r with
    | inl ps => simp only [collectResults]; exact ih _ _ _
    | inr m => simp only [collectResults]; exact ih _ _ _

theorem collect_acc_mem (s : Bool) :
    ∀ rs (acc : List Post) (st : RunState) (p : Post),
      p ∈ acc → p ∈ (collectResults s rs acc st).1 := by
  intro rs
  induction rs with
  | nil => intro acc st p hp; exact hp
  | cons r rs ih =>
    intro acc st p hp
    cases r with
    | inl ps =>
      simp only [collectResults]
      exact ih _ _ p (List.mem_append_left ps hp)
    | inr m =>
      simp only [collectResults]
      exact ih _ _ p hp

theorem collect_mem_inl (s : Bool) :
    ∀ rs (acc : List Post) (st : RunState) (ps : List Post) (p : Post),
      Sum.inl ps ∈ rs → p ∈ ps → p ∈ (collectResults s rs acc st).1 := by
  intro rs
  induction rs with
  | nil => intro acc st ps p hmem; simp at hmem
  | cons r rs ih =>
    intro acc st ps p hmem hp
    rcases List.mem_cons.1 hmem with hhd | htl
    · subst hhd
      simp only [collectResults]
      exact collect_acc_mem s rs _ _ p (List.mem_append_right acc hp)
    · cases r with
      | inl qs =>
        simp only [collectResults]
        exact ih _ _ ps p htl hp
      | inr m =>
        simp only [collectResults]
        exact ih _ _ ps p htl hp

theorem collect_mem_cases (s : Bool) :
    ∀ rs (acc : List Post) (st : RunState) (p : Post),
      p ∈ (collectResults s rs acc st).1 →
      p ∈ acc ∨ ∃ ps, Sum.inl ps ∈ rs ∧ p ∈ ps := by
  intro rs
  induction rs with
  | nil => intro acc st p hp; exact Or.inl hp
  | cons r rs ih =>
    intro acc st p hp
    cases r with
    | inl ps =>
      simp only [collectResults] at hp
      rcases ih _ _ p hp with hacc | ⟨qs, hqs, hpq⟩
      · rcases List.mem_append.1 hacc with h₁ | h₂
        · exact Or.inl h₁
        · exact Or.inr ⟨ps, List.mem_cons_self _ _, h₂⟩
      · exact Or.inr ⟨qs, List.mem_cons_of_mem _ hqs, hpq⟩
    | inr m =>
      simp only [collectResults] at hp
      rcases ih _ _ p hp with hacc | ⟨qs, hqs, hpq⟩
      · exact Or.inl hacc
      · exact Or.inr ⟨qs, List.mem_cons_of_mem _ hqs, hpq⟩

theorem collect_false_errorsList :
    ∀ rs (acc : List Post) (st : RunState),
      (collectResults false rs acc st).2.errorsList = st.errorsList := by
  intro rs
  induction rs with
  | nil => intro acc st; rfl
  | cons r rs ih =>
    intro acc st
    cases r with
    | inl ps => simp only [collectResults]; exact ih _ _
    | inr m =>
      simp only [collectResults]
      rw [ih]
      simp

theorem collect_true_trace :
    ∀ rs (acc : List Post) (st : RunState),
      (collectResults true rs acc st).2.trace = st.trace := by
  intro rs
  induction rs with
  | nil => intro acc st; rfl
  | cons r rs ih =>
    intro acc st
    cases r with
    | inl ps => simp only [collectResults]; exact ih _ _
    | inr m =>
      simp only [collectResults]
      rw [ih]
      simp

theorem collect_append (s : Bool) :
    ∀ (rs₁ rs₂ : List (List Post ⊕ String)) (acc : List Post)
      (st : RunState),
      collectResults s (rs₁ ++ rs₂) acc st
        = collectResults s rs₂ (collectResults s rs₁ acc st).1
            (collectResults s rs₁ acc st).2 := by
  intro rs₁
  induction rs₁ with
  | nil => intro rs₂ acc st; rfl
  | cons r rs ih =>
    intro rs₂ acc st
    cases r with
    | inl ps =>
      simp only [List.cons_append, collectResults]
      exact ih _ _ _
    | inr m =>
      simp only [List.cons_append, collectResults]
      exact ih _ _ _

theorem collect_all_inl_state (s : Bool) :
    ∀ rs (acc : List Post) (st : RunState),
      (∀ r ∈ rs, ∃ ps, r = Sum.inl ps) →
      (collectResults s rs acc st).2 = st := by
  intro rs
  induction rs with
  | nil => intro acc st _; rfl
  | cons r rs ih =>
    intro acc st hall
    rcases hall r (List.mem_cons_self _ _) with ⟨ps, hps⟩
    subst hps
    simp only [collectResults]
    exact ih _ _ (fun x hx => hall x (List.mem_cons_of_mem _ hx))

theorem collect_trace_suffix (s : Bool) :
    ∀ rs (acc : List Post) (st : RunState),
      ∃ l, (collectResults s rs acc st).2.trace = st.trace ++ l := by
  intro rs
  induction rs with
  | nil => intro acc st; exact ⟨[], by simp [collectResults]⟩
  | cons r rs ih =>
    intro acc st
    cases r with
    | inl ps => simpa only [collectResults] using ih _ _
    | inr m =>
      simp only [collectResults]
      rcases ih (acc)
        (emitTerminal s ("Ошибка при обработке ленты: " ++ m) st) with ⟨l, hl⟩
      rw [hl]
      unfold emitTerminal
      by_cases hs : s = true
      · rw [if_pos hs]
        exact ⟨l, rfl⟩
      · rw [if_neg hs]
        exact ⟨[.err ("Ошибка при обработке ленты: " ++ m)] ++ l, by simp⟩

@[simp] theorem errorsEpilogue_errorsList (s : Bool) (st : RunState) :
    (errorsEpilogue s st).errorsList = st.errorsList := by
  unfold errorsEpilogue; split <;> rfl

theorem errorsEpilogue_trace_shape (s : Bool) (st : RunState) :
    ∃ errs, (errorsEpilogue s st).trace = st.trace ++ errs
      ∧ ∀ ev ∈ errs, ∃ m, ev = OutEvent.err m := by
  unfold errorsEpilogue
  split
  · refine ⟨[.err "\nОшибки обработки лент:"]
      ++ st.errorsList.map (fun e => .err ("  " ++ e)), by simp, ?_⟩
    intro ev hev
    rcases List.mem_append.1 hev with h₁ | h₂
    · simp at h₁
      exact ⟨_, h₁⟩
    · rcases List.mem_map.1 h₂ with ⟨m, _, hm⟩
      exact ⟨_, hm.symm⟩
  · exact ⟨[], by simp, by simp⟩

theorem renderReport_errorsList (posts : List Post) (ds : String)
    (s md : Bool) (st : RunState) :
    (renderReport posts ds s md st).errorsList = st.errorsList := by
  unfold renderReport
  split
  · rw [errorsEpilogue_errorsList]
  · split
    · split <;> rw [errorsEpilogue_errorsList]
    · split <;> rw [errorsEpilogue_errorsList]

theorem epilogue_shape₂ (s : Bool) (st0 : RunState) (base mid : List OutEvent)
    (htrace : st0.trace = base ++ mid)
    (hmid : ∀ ev ∈ mid, ∃ m, ev = OutEvent.out m) :
    ∃ outs errs, (errorsEpilogue s st0).trace = base ++ outs ++ errs
      ∧ (∀ ev ∈ outs, ∃ m, ev = OutEvent.out m)
      ∧ (∀ ev ∈ errs, ∃ m, ev = OutEvent.err m) := by
  rcases errorsEpilogue_trace_shape s st0 with ⟨errs, htr, herrs⟩
  exact ⟨mid, errs, by rw [htr, htrace, List.append_assoc], hmid, herrs⟩

theorem renderPostPlain_all_out (post : Post) :
    ∀ ev ∈ renderPostPlain post, ∃ m, ev = OutEvent.out m := by
  intro ev hev
  unfold renderPostPlain at hev
  rcases List.mem_append.1 hev with h₁ | h₂
  · rcases List.mem_append.1 h₁ with h₃ | h₄
    · rcases List.mem_cons.1 h₃ with h | h
      · exact ⟨_, h⟩
      · rcases List.mem_cons.1 h with h' | h'
        · exact ⟨_, h'⟩
        · simp at h'
    · revert h₄
      split <;> intro h₄
      · exact ⟨_, List.mem_singleton.1 h₄⟩
      · simp at h₄
  · revert h₂
    split <;> intro h₂
    · exact ⟨_, List.mem_singleton.1 h₂⟩
    · simp at h₂

theorem flatten_renderPostPlain_all_out (posts : List Post) :
    ∀ ev ∈ (posts.map renderPostPlain).flatten, ∃ m, ev = OutEvent.out m := by
  intro ev hev
  rcases List.mem_flatten.1 hev with ⟨l, hl, hev₂⟩
  rcases List.mem_map.1 hl with ⟨post, _, hpost⟩
  subst hpost
  exact renderPostPlain_all_out post ev hev₂

theorem renderReport_trace_shape (posts : List Post) (ds : String)
    (s md : Bool) (st : RunState) :
    ∃ outs errs, (renderReport posts ds s md st).trace
        = st.trace ++ outs ++ errs
      ∧ (∀ ev ∈ outs, ∃ m, ev = OutEvent.out m)
      ∧ (∀ ev ∈ errs, ∃ m, ev = OutEvent.err m) := by
  unfold renderReport
  split
  · exact epilogue_shape₂ s _ st.trace [.out (format_posts_markdown posts ds)]
      (by simp) (by simp)
  · cases s with
    | false =>
      simp only [if_neg (show ¬(false = true) by simp)]
      split
      · refine epilogue_shape₂ false _ st.trace
          ([.out ("\nНайдено " ++ toString posts.length ++ " постов за "
              ++ ds ++ ":"), .out equalsLine]
            ++ [.out "Посты за указанную дату не найдены."]) (by simp) ?_
        intro ev hev
        simp only [List.mem_append, List.mem_cons, List.not_mem_nil,
          or_false] at hev
        rcases hev with (h | h) | h <;> exact ⟨_, h⟩
      · refine epilogue_shape₂ false _ st.trace
          ([.out ("\nНайдено " ++ toString posts.length ++ " постов за "
              ++ ds ++ ":"), .out equalsLine]
            ++ (posts.map renderPostPlain).flatten) (by simp) ?_
        intro ev hev
        rcases List.mem_append.1 hev with h₁ | h₂
        · simp only [List.mem_cons, List.not_mem_nil, or_false] at h₁
          rcases h₁ with h | h <;> exact ⟨_, h⟩
        · exact flatten_renderPostPlain_all_out posts ev h₂
    | true =>
      simp only [if_pos rfl]
      split
      · exact epilogue_shape₂ true _ st.trace
          [.out "Посты за указанную дату не найдены."] (by simp) (by simp)
      · exact epilogue_shape₂ true _ st.trace
          ((posts.map renderPostPlain).flatten) (by simp)
          (flatten_renderPostPlain_all_out posts)

/-! Named pipeline stages of `read_posts_for_date`, for use in theorem
statements: the progress-header state, the gathered results, the
collected (pre-sort) posts, and the sorted report. -/

/-- State after the progress header and queueing messages, before the
fetch tasks run. -/
def preGatherState (tasks : List FetchTask) (date_str : String)
    (silent : Bool) : RunState :=
  let st₁ := if silent then initState else
    { initState with trace :=
        [.out ("Поиск постов за " ++ date_str ++ "..."), .out dashesLine] }
  let st₂ := if silent then st₁ else
    { st₁ with trace := st₁.trace
        ++ tasks.map (fun t => .out ("Добавляем в очередь: " ++ t.title)) }
  if silent then st₂ else
    { st₂ with trace := st₂.trace
        ++ [.out ("Загружаем " ++ toString tasks.length
              ++ " RSS лент параллельно...")] }

/-- The `asyncio.gather` stage of the pipeline. -/
def pipelineGathered (tasks : List FetchTask) (date_obj : Int)
    (date_str : String) (silent : Bool) :
    List (List Post ⊕ String) × RunState :=
  gatherTasks (parse_date_argument date_obj).1 (parse_date_argument date_obj).2
    silent tasks (preGatherState tasks date_str silent)

/-- The result-collection stage of the pipeline. -/
def pipelineCollected (tasks : List FetchTask) (date_obj : Int)
    (date_str : String) (silent : Bool) : List Post × RunState :=
  collectResults silent (pipelineGathered tasks date_obj date_str silent).1 []
    (pipelineGathered tasks date_obj date_str silent).2

/-- The merged `all_posts` list before the final sort. -/
def mergedPosts (tasks : List FetchTask) (date_obj : Int)
    (date_str : String) (silent : Bool) : List Post :=
  (pipelineCollected tasks date_obj date_str silent).1

/-- The merged posts after the final stable sort by `published`. -/
def sortedPosts (tasks : List FetchTask) (date_obj : Int)
    (date_str : String) (silent : Bool) : List Post :=
  (mergedPosts tasks date_obj date_str silent).mergeSort
    (fun a b => decide (a.published ≤ b.published))

theorem read_posts_for_date_eq (tasks : List FetchTask) (d : Int)
    (ds : String) (silent md : Bool) :
    read_posts_for_date tasks d ds silent md
      = (sortedPosts tasks d ds silent,
         renderReport (sortedPosts tasks d ds silent) ds silent md
           (pipelineCollected tasks d ds silent).2) := rfl

@[simp] theorem emitRetry_sleeps (s : Bool) (m : String) (st : RunState) :
    (emitRetry s m st).sleeps = st.sleeps := by
  unfold emitRetry; split <;> rfl

@[simp] theorem emitRetry_requests (s : Bool) (m : String) (st : RunState) :
    (emitRetry s m st).requestsMade = st.requestsMade := by
  unfold emitRetry; split <;> rfl

@[simp] theorem emitRetry_errorsList (s : Bool) (m : String) (st : RunState) :
    (emitRetry s m st).errorsList = st.errorsList := by
  unfold emitRetry; split <;> rfl

theorem emitTerminal_errorsList_append (s : Bool) (m : String)
    (st st' : RunState) :
    (emitTerminal s m st).errorsList
      = st.errorsList
        ++ ((emitTerminal s m st').errorsList).drop st'.errorsList.length := by
  unfold emitTerminal
  cases s with
  | false => simp
  | true => simp

@[simp] theorem preGatherState_silent (tasks : List FetchTask) (ds : String) :
    preGatherState tasks ds true = initState := rfl

@[simp] theorem preGatherState_errorsList (tasks : List FetchTask)
    (ds : String) (s : Bool) : (preGatherState tasks ds s).errorsList = [] := by
  unfold preGatherState
  cases s <;> rfl

theorem fetchLoop_errorsList_append (b : Nat → AttemptResult) (u : String)
    (sd ed : Int) (silent : Bool) (mr : Nat) :
    ∀ fuel att st,
      (fetchLoop b u sd ed silent mr fuel att st).2.errorsList
        = st.errorsList
          ++ (fetchLoop b u sd ed silent mr fuel att initState).2.errorsList := by
  intro fuel
  induction fuel with
  | zero => intro att st; simp [fetchLoop, initState]
  | succ n ih =>
    intro att st
    cases hb : b att
    case success ft es => simp [fetchLoop, hb, initState]
    case httpStatusError code =>
      cases silent with
      | false => simp [fetchLoop, hb, initState]
      | true => simp [fetchLoop, hb, initState]
    case timeoutExc et m =>
      by_cases hc : att < mr
      · simp only [fetchLoop, hb, if_pos hc]
        rw [ih _ { emitRetry silent _ { st with requestsMade := st.requestsMade + 1 } with
              sleeps := (emitRetry silent _ { st with requestsMade := st.requestsMade + 1 }).sleeps ++ [(att + 1) * 2] }]
        rw [ih _ { emitRetry silent _ { initState with requestsMade := initState.requestsMade + 1 } with
              sleeps := (emitRetry silent _ { initState with requestsMade := initState.requestsMade + 1 }).sleeps ++ [(att + 1) * 2] }]
        simp [initState]
      · cases silent with
        | false => simp [fetchLoop, hb, if_neg hc, initState]
        | true => simp [fetchLoop, hb, if_neg hc, initState]
    case connectError m =>
      by_cases hc : att < mr
      · simp only [fetchLoop, hb, if_pos hc]
        rw [ih _ { emitRetry silent _ { st with requestsMade := st.requestsMade + 1 } with
              sleeps := (emitRetry silent _ { st with requestsMade := st.requestsMade + 1 }).sleeps ++ [(att + 1) * 2] }]
        rw [ih _ { emitRetry silent _ { initState with requestsMade := initState.requestsMade + 1 } with
              sleeps := (emitRetry silent _ { initState with requestsMade := initState.requestsMade + 1 }).sleeps ++ [(att + 1) * 2] }]
        simp [initState]
      · cases silent with
        | false => simp [fetchLoop, hb, if_neg hc, initState]
        | true => simp [fetchLoop, hb, if_neg hc, initState]
    case unsupportedProtocol m =>
      cases silent with
      | false => simp [fetchLoop, hb, initState]
      | true => simp [fetchLoop, hb, initState]
    case tooManyRedirects m =>
      cases silent with
      | false => simp [fetchLoop, hb, initState]
      | true => simp [fetchLoop, hb, initState]
    case invalidURL m =>
      cases silent with
      | false => simp [fetchLoop, hb, initState]
      | true => simp [fetchLoop, hb, initState]
    case sslError m =>
      by_cases hc : att < mr
      · simp only [fetchLoop, hb, if_pos hc]
        rw [ih _ { emitRetry silent _ { st with requestsMade := st.requestsMade + 1 } with
              sleeps := (emitRetry silent _ { st with requestsMade := st.requestsMade + 1 }).sleeps ++ [(att + 1) * 2] }]
        rw [ih _ { emitRetry silent _ { initState with requestsMade := initState.requestsMade + 1 } with
              sleeps := (emitRetry silent _ { initState with requestsMade := initState.requestsMade + 1 }).sleeps ++ [(att + 1) * 2] }]
        simp [initState]
      · cases silent with
        | false => simp [fetchLoop, hb, if_neg hc, initState]
        | true => simp [fetchLoop, hb, if_neg hc, initState]
    case requestError et m =>
      by_cases hc : att < mr ∧ msgMentionsTimeout m
      · simp only [fetchLoop, hb, if_pos hc]
        rw [ih _ { emitRetry silent _ { st with requestsMade := st.requestsMade + 1 } with
              sleeps := (emitRetry silent _ { st with requestsMade := st.requestsMade + 1 }).sleeps ++ [(att + 1) * 2] }]
        rw [ih _ { emitRetry silent _ { initState with requestsMade := initState.requestsMade + 1 } with
              sleeps := (emitRetry silent _ { initState with requestsMade := initState.requestsMade + 1 }).sleeps ++ [(att + 1) * 2] }]
        simp [initState]
      · cases silent with
        | false => simp [fetchLoop, hb, if_neg hc, initState]
        | true => simp [fetchLoop, hb, if_neg hc, initState]
    case unexpected m =>
      cases silent with
      | false => simp [fetchLoop, hb, initState]
      | true => simp [fetchLoop, hb, initState]

theorem gather_errorsList_append (sd ed : Int) (s : Bool) :
    ∀ ts (st : RunState),
      (gatherTasks sd ed s ts st).2.errorsList
        = st.errorsList
          ++ (gatherTasks sd ed s ts initState).2.errorsList := by
  intro ts
  induction ts with
  | nil => intro st; simp [gatherTasks, initState]
  | cons t ts ih =>
    intro st
    simp only [gatherTasks]
    rw [ih ((runTask sd ed s st t).2)]
    rw [ih ((runTask sd ed s initState t).2)]
    cases t with
    | run ttl url b =>
      simp only [runTask, get_feed_posts]
      rw [fetchLoop_errorsList_append b url sd ed s 2 3 0 st]
      simp [initState, List.append_assoc]
    | raises ttl url m => simp [runTask, initState]

/-! Concrete fixtures used by witnesses and counterexamples. -/

/-- An entry published 100 seconds into the queried day. -/
def entryA : Entry :=
  { published_parsed := some 100, updated_parsed := none,
    title := some "Пост A", link := some "http://a/1",
    summary := some "Описание" }

/-- An entry with no parseable timestamp at all. -/
def entryNoDate : Entry :=
  { published_parsed := none, updated_parsed := none,
    title := some "X", link := none, summary := none }

/-- A feed task that succeeds with one in-window entry. -/
def taskA : FetchTask :=
  .run "Лента A" "http://a" (fun _ => .success (some "Feed A") [entryA])

/-- A feed task whose fetch always returns HTTP 404. -/
def taskB404 : FetchTask :=
  .run "Лента B" "http://b" (fun _ => .httpStatusError 404)

/-- The post produced from `entryA` by `taskA`. -/
def postA : Post :=
  { title := "Пост A", link := "http://a/1", published := 100,
    feed_title := "Feed A", description := "Описание" }

/-- A behaviour returning HTTP 429 on every attempt. -/
def beh429 : Nat → AttemptResult := fun _ => .httpStatusError 429

/-- A behaviour that times out twice then succeeds. -/
def behTimeoutTwice : Nat → AttemptResult
  | 0 => .timeoutExc "ReadTimeout" "timeout one"
  | 1 => .timeoutExc "ConnectTimeout" "timeout two"
  | _ => .success (some "Feed A") [entryA]

/-- C1: for every entry appearing in the merged final report, the
published timestamp `t` satisfies `window.start ≤ t < window.end`, where
the window is the half-open calendar-day interval computed by
`parse_date_argument` from the user-supplied date; no out-of-window
entry is ever surfaced, whatever the feeds' behaviours. -/
theorem merged_report_entries_in_window (tasks : List FetchTask) (d : Int)
    (ds : String) (silent md : Bool) (p : Post)
    (hp : p ∈ (read_posts_for_date tasks d ds silent md).1) :
    (parse_date_argument d).1 ≤ p.published
      ∧ p.published < (parse_date_argument d).2 := by
  rw [read_posts_for_date_eq] at hp
  have hp₁ : p ∈ sortedPosts tasks d ds silent := hp
  unfold sortedPosts at hp₁
  have hp₂ : p ∈ mergedPosts tasks d ds silent := List.mem_mergeSort.1 hp₁
  unfold mergedPosts pipelineCollected at hp₂
  rcases collect_mem_cases silent _ _ _ p hp₂ with hacc | ⟨ps, hmem, hpps⟩
  · simp at hacc
  · unfold pipelineGathered at hmem
    exact gather_inl_window (parse_date_argument d).1 (parse_date_argument d).2
      silent tasks _ ps hmem p hpps

theorem merged_report_entries_in_window_witness :
    postA ∈ (read_posts_for_date [taskB404, taskA] 0 "2025-01-15"
        false false).1
      ∧ (parse_date_argument 0).1 ≤ postA.published
      ∧ postA.published < (parse_date_argument 0).2 := by
  have hmerged : mergedPosts [taskB404, taskA] 0 "2025-01-15" false
      = [postA] := by decide
  have hsorted : sortedPosts [taskB404, taskA] 0 "2025-01-15" false
      = [postA] := by
    unfold sortedPosts
    rw [hmerged]
    simp
  have hp : postA ∈ (read_posts_for_date [taskB404, taskA] 0 "2025-01-15"
      false false).1 := by
    rw [read_posts_for_date_eq]
    show postA ∈ sortedPosts [taskB404, taskA] 0 "2025-01-15" false
    rw [hsorted]
    simp
  exact ⟨hp, merged_report_entries_in_window [taskB404, taskA] 0 "2025-01-15"
    false false postA hp⟩

/-- C2: the fan-out stage produces exactly one outcome per feed — the
gathered results list is pointwise aligned with the task list, each
result being the isolated outcome of its own task (so no feed is
dropped, duplicated, or affected by other feeds' failures) — and every
post of every successful outcome reaches the merged final report, while
errors are collected separately from posts. -/
theorem fanout_outcomes_aligned (tasks : List FetchTask) (d : Int)
    (ds : String) (silent md : Bool) :
    (∀ i : Nat,
        (pipelineGathered tasks d ds silent).1[i]?
          = (tasks[i]?).map
              (taskOutcome (parse_date_argument d).1
                (parse_date_argument d).2 silent))
    ∧ (∀ t ∈ tasks, ∀ (ps : List Post) (p : Post),
        taskOutcome (parse_date_argument d).1 (parse_date_argument d).2
            silent t = Sum.inl ps →
        p ∈ ps → p ∈ (read_posts_for_date tasks d ds silent md).1) := by
  constructor
  · intro i
    unfold pipelineGathered
    exact gather_get? _ _ silent tasks _ i
  · intro t ht ps p hout hp
    rw [read_posts_for_date_eq]
    show p ∈ sortedPosts tasks d ds silent
    unfold sortedPosts
    rw [List.mem_mergeSort]
    rcases List.mem_iff_getElem?.1 ht with ⟨i, hi⟩
    have hres : (pipelineGathered tasks d ds silent).1[i]?
        = some (Sum.inl ps) := by
      unfold pipelineGathered
      rw [gather_get? _ _ silent tasks _ i, hi, Option.map_some', hout]
    have hmem : Sum.inl ps ∈ (pipelineGathered tasks d ds silent).1 :=
      List.mem_iff_getElem?.2 ⟨i, hres⟩
    unfold mergedPosts pipelineCollected
    exact collect_mem_inl silent _ [] _ ps p hmem hp

theorem fanout_outcomes_aligned_witness :
    taskA ∈ [taskB404, taskA]
      ∧ taskOutcome (parse_date_argument 0).1 (parse_date_argument 0).2
          false taskA = Sum.inl [postA]
      ∧ postA ∈ (read_posts_for_date [taskB404, taskA] 0 "2025-01-15"
          false false).1 := by
  have ht : taskA ∈ [taskB404, taskA] :=
    List.mem_cons_of_mem _ (List.mem_cons_self _ _)
  have hout : taskOutcome (parse_date_argument 0).1 (parse_date_argument 0).2
      false taskA = Sum.inl [postA] := by decide
  exact ⟨ht, hout,
    (fanout_outcomes_aligned [taskB404, taskA] 0 "2025-01-15" false false).2
      taskA ht [postA] postA hout (by decide)⟩

theorem postLE_trans : ∀ a b c : Post,
    decide (a.published ≤ b.published) →
    decide (b.published ≤ c.published) →
    decide (a.published ≤ c.published) := by
  intro a b c hab hbc
  simp only [decide_eq_true_eq] at hab hbc ⊢
  omega

theorem postLE_total : ∀ a b : Post,
    decide (a.published ≤ b.published) || decide (b.published ≤ a.published) := by
  intro a b
  simp only [Bool.or_eq_true, decide_eq_true_eq]
  omega

theorem mergeSort_filter_key (l : List Post) (v : Int) :
    (l.mergeSort (fun a b => decide (a.published ≤ b.published))).filter
        (fun p => decide (p.published = v))
      = l.filter (fun p => decide (p.published = v)) := by
  have hperm : (l.mergeSort (fun a b => decide (a.published ≤ b.published))).Perm l :=
    List.mergeSort_perm l _
  have hpermf := hperm.filter (fun p => decide (p.published = v))
  have hball : ∀ p ∈ l.filter (fun p => decide (p.published = v)),
      p.published = v := by
    intro p hp
    have := (List.mem_filter.1 hp).2
    simpa using this
  have hbpair : (l.filter (fun p => decide (p.published = v))).Pairwise
      (fun a b => decide (a.published ≤ b.published) = true) := by
    apply List.pairwise_of_forall_mem_list
    intro a ha b hb
    have hav := hball a ha
    have hbv := hball b hb
    simp [hav, hbv]
  have hsub : List.Sublist (l.filter (fun p => decide (p.published = v))) l :=
    List.filter_sublist l
  have hstable := List.sublist_mergeSort postLE_trans postLE_total hbpair hsub
  have hsubf := hstable.filter (fun p => decide (p.published = v))
  rw [List.filter_filter] at hsubf
  have hself : (fun p : Post => decide (p.published = v) && decide (p.published = v))
      = (fun p : Post => decide (p.published = v)) := by
    funext p
    cases decide (p.published = v) <;> rfl
  rw [hself] at hsubf
  have hlen := hpermf.length_eq
  exact (hsubf.eq_of_length hlen.symm).symm

/-- C3: for every run, the merged final report equals the stable merge
sort (by `published`, ascending) of the concatenated per-feed results;
it is sorted non-decreasing by `published`, and entries with equal
timestamps keep their original arrival order (the subsequence at any
fixed timestamp is unchanged by the sort). -/
theorem merged_report_sorted_stable (tasks : List FetchTask) (d : Int)
    (ds : String) (silent md : Bool) :
    (read_posts_for_date tasks d ds silent md).1
        = (mergedPosts tasks d ds silent).mergeSort
            (fun a b => decide (a.published ≤ b.published))
    ∧ (read_posts_for_date tasks d ds silent md).1.Pairwise
        (fun a b => a.published ≤ b.published)
    ∧ ∀ v : Int,
        (read_posts_for_date tasks d ds silent md).1.filter
            (fun p => decide (p.published = v))
          = (mergedPosts tasks d ds silent).filter
              (fun p => decide (p.published = v)) := by
  have heq : (read_posts_for_date tasks d ds silent md).1
      = (mergedPosts tasks d ds silent).mergeSort
          (fun a b => decide (a.published ≤ b.published)) := by
    rw [read_posts_for_date_eq]
    rfl
  refine ⟨heq, ?_, ?_⟩
  · rw [heq]
    have hsorted := List.sorted_mergeSort postLE_trans postLE_total
      (mergedPosts tasks d ds silent)
    exact hsorted.imp (fun h => of_decide_eq_true h)
  · intro v
    rw [heq]
    exact mergeSort_filter_key (mergedPosts tasks d ds silent) v

/-- C4: the retry policy of `get_feed_posts` (with the default
`max_retries = 2`): any HTTP status error is terminal on the first
attempt — the whole call reduces to the error emission, independent of
later behaviour, with exactly one request issued and no backoff sleep —
while a feed that times out twice and succeeds on the third attempt
yields the parsed in-window entries after sleeping 2 then 4 seconds
(wait = attempt number * 2); moreover a backoff sleep can only ever
happen when some attempt before the last hit a transient failure
(timeout, connection failure, or TLS failure, or a network error whose
message mentions a timeout). -/
theorem retry_policy (b : Nat → AttemptResult) (u : String) (sd ed : Int)
    (silent : Bool) (st : RunState) :
    (∀ code : Nat, b 0 = AttemptResult.httpStatusError code →
        get_feed_posts b u sd ed silent st
          = ([], emitTerminal silent (httpErrorMessage u code)
              { st with requestsMade := st.requestsMade + 1 }))
    ∧ (∀ (et₀ m₀ et₁ m₁ : String) (ft : Option String) (es : List Entry),
        b 0 = AttemptResult.timeoutExc et₀ m₀ →
        b 1 = AttemptResult.timeoutExc et₁ m₁ →
        b 2 = AttemptResult.success ft es →
        (get_feed_posts b u sd ed silent st).1 = entriesToPosts sd ed ft es
          ∧ (get_feed_posts b u sd ed silent st).2.sleeps
              = st.sleeps ++ [2, 4]
          ∧ (get_feed_posts b u sd ed silent st).2.requestsMade
              = st.requestsMade + 3)
    ∧ ((get_feed_posts b u sd ed silent st).2.sleeps = st.sleeps
        ∨ ∃ i, i < 2 ∧ isTransient (b i) = true) := by
  refine ⟨?_, ?_, ?_⟩
  · intro code h0
    simp [get_feed_posts, fetchLoop, h0]
  · intro et₀ m₀ et₁ m₁ ft es h0 h1 h2
    refine ⟨?_, ?_, ?_⟩
    · simp [get_feed_posts, fetchLoop, h0, h1, h2]
    · simp [get_feed_posts, fetchLoop, h0, h1, h2]
    · simp [get_feed_posts, fetchLoop, h0, h1, h2]
  · rcases fetchLoop_sleeps_or_transient b u sd ed silent 2 3 0 st with h | ⟨i, _, hi, ht⟩
    · exact Or.inl h
    · exact Or.inr ⟨i, hi, ht⟩

theorem retry_policy_witness :
    (get_feed_posts beh429 "http://b" 0 86400 true initState
        = ([], emitTerminal true (httpErrorMessage "http://b" 429)
            { initState with requestsMade := initState.requestsMade + 1 }))
      ∧ (get_feed_posts behTimeoutTwice "http://a" 0 86400 false
            initState).1 = entriesToPosts 0 86400 (some "Feed A") [entryA]
      ∧ (get_feed_posts behTimeoutTwice "http://a" 0 86400 false
            initState).2.sleeps = initState.sleeps ++ [2, 4]
      ∧ (get_feed_posts behTimeoutTwice "http://a" 0 86400 false
            initState).2.requestsMade = initState.requestsMade + 3 := by
  refine ⟨(retry_policy beh429 "http://b" 0 86400 true initState).1 429 rfl, ?_⟩
  exact (retry_policy behTimeoutTwice "http://a" 0 86400 false initState).2.1
    "ReadTimeout" "timeout one" "ConnectTimeout" "timeout two"
    (some "Feed A") [entryA] rfl rfl rfl

theorem gather_fst_eq_map (sd ed : Int) (s : Bool) (ts : List FetchTask)
    (st : RunState) :
    (gatherTasks sd ed s ts st).1 = ts.map (taskOutcome sd ed s) := by
  apply List.ext_getElem?
  intro i
  rw [gather_get?, List.getElem?_map]

theorem mergedPosts_outcomes (tasks : List FetchTask) (d : Int) (ds : String)
    (silent : Bool) :
    mergedPosts tasks d ds silent
      = (collectResults silent
          (tasks.map (taskOutcome (parse_date_argument d).1
            (parse_date_argument d).2 silent)) [] initState).1 := by
  unfold mergedPosts pipelineCollected
  rw [show (pipelineGathered tasks d ds silent).1
      = tasks.map (taskOutcome (parse_date_argument d).1
          (parse_date_argument d).2 silent) from by
    unfold pipelineGathered
    exact gather_fst_eq_map _ _ silent tasks _]
  exact collect_fst_irrel silent _ [] _ _

theorem isRun_outcome_inl (sd ed : Int) (s : Bool) (t : FetchTask)
    (h : t.isRun = true) : ∃ ps, taskOutcome sd ed s t = Sum.inl ps := by
  cases t with
  | run ttl url b => exact ⟨_, rfl⟩
  | raises ttl url m => simp [FetchTask.isRun] at h

theorem gather_raises_middle (sd ed : Int) (s : Bool)
    (pre post : List FetchTask) (ttl url m : String) (st : RunState) :
    gatherTasks sd ed s (pre ++ .raises ttl url m :: post) st
      = ((gatherTasks sd ed s pre st).1
          ++ Sum.inr m
            :: (gatherTasks sd ed s post (gatherTasks sd ed s pre st).2).1,
         (gatherTasks sd ed s post (gatherTasks sd ed s pre st).2).2) := by
  rw [gather_append]
  simp only [gatherTasks, runTask]

theorem collect_raises_middle (s : Bool)
    (rs₁ rs₂ : List (List Post ⊕ String)) (m : String) (acc : List Post)
    (st : RunState)
    (h1 : ∀ r ∈ rs₁, ∃ ps, r = Sum.inl ps)
    (h2 : ∀ r ∈ rs₂, ∃ ps, r = Sum.inl ps) :
    (collectResults s (rs₁ ++ Sum.inr m :: rs₂) acc st).1
        = (collectResults s (rs₁ ++ rs₂) acc st).1
      ∧ (collectResults s (rs₁ ++ Sum.inr m :: rs₂) acc st).2
        = emitTerminal s ("Ошибка при обработке ленты: " ++ m) st := by
  constructor
  · rw [collect_append, collect_append]
    simp only [collectResults]
    exact collect_fst_irrel s rs₂ _ _ _
  · rw [collect_append]
    simp only [collectResults]
    rw [collect_all_inl_state s rs₂ _ _ h2,
        collect_all_inl_state s rs₁ acc st h1]

@[simp] theorem taskOutcome_raises (sd ed : Int) (s : Bool)
    (ttl url m : String) :
    taskOutcome sd ed s (.raises ttl url m) = Sum.inr m := rfl

/-- C5: the fetcher returns a value in every branch (it is a total
function of the behaviour oracle), and the coordinator converts an
exception escaping a fetch task into an error outcome for that feed
only: inserting an exception-raising task anywhere into a list of
normal fetch tasks leaves the merged final report unchanged, appends
exactly one converted error message to the collected errors in silent
mode, and in verbose mode writes that message to the error stream while
the collected-errors list stays empty. -/
theorem exception_converted_per_feed (pre post : List FetchTask)
    (ttl url m : String) (d : Int) (ds : String) (silent md : Bool)
    (hall : ∀ t ∈ pre ++ post, t.isRun = true) :
    (read_posts_for_date (pre ++ .raises ttl url m :: post) d ds silent md).1
        = (read_posts_for_date (pre ++ post) d ds silent md).1
      ∧ (silent = true →
          (read_posts_for_date (pre ++ .raises ttl url m :: post) d ds
              silent md).2.errorsList
            = (read_posts_for_date (pre ++ post) d ds silent md).2.errorsList
              ++ ["Ошибка при обработке ленты: " ++ m])
      ∧ (silent = false →
          (read_posts_for_date (pre ++ .raises ttl url m :: post) d ds
              silent md).2.errorsList = []
          ∧ OutEvent.err ("Ошибка при обработке ленты: " ++ m)
              ∈ (read_posts_for_date (pre ++ .raises ttl url m :: post) d ds
                  silent md).2.trace) := by
  have hallpre : ∀ t ∈ pre, t.isRun = true :=
    fun t ht => hall t (List.mem_append_left _ ht)
  have hallpost : ∀ t ∈ post, t.isRun = true :=
    fun t ht => hall t (List.mem_append_right _ ht)
  have hinl_pre : ∀ r ∈ pre.map (taskOutcome (parse_date_argument d).1
      (parse_date_argument d).2 silent), ∃ ps, r = Sum.inl ps := by
    intro r hr
    rcases List.mem_map.1 hr with ⟨t, ht, rfl⟩
    exact isRun_outcome_inl _ _ silent t (hallpre t ht)
  have hinl_post : ∀ r ∈ post.map (taskOutcome (parse_date_argument d).1
      (parse_date_argument d).2 silent), ∃ ps, r = Sum.inl ps := by
    intro r hr
    rcases List.mem_map.1 hr with ⟨t, ht, rfl⟩
    exact isRun_outcome_inl _ _ silent t (hallpost t ht)
  have hposts : mergedPosts (pre ++ .raises ttl url m :: post) d ds silent
      = mergedPosts (pre ++ post) d ds silent := by
    rw [mergedPosts_outcomes, mergedPosts_outcomes]
    simp only [List.map_append, List.map_cons, taskOutcome_raises]
    exact (collect_raises_middle silent _ _ m [] initState
      hinl_pre hinl_post).1
  have hinlW1 : ∀ r ∈ (gatherTasks (parse_date_argument d).1
      (parse_date_argument d).2 silent pre
      (preGatherState (pre ++ .raises ttl url m :: post) ds silent)).1,
      ∃ ps, r = Sum.inl ps := by
    rw [gather_fst_eq_map]
    exact hinl_pre
  have hinlW2 : ∀ r ∈ (gatherTasks (parse_date_argument d).1
      (parse_date_argument d).2 silent post
      (gatherTasks (parse_date_argument d).1 (parse_date_argument d).2
        silent pre
        (preGatherState (pre ++ .raises ttl url m :: post) ds silent)).2).1,
      ∃ ps, r = Sum.inl ps := by
    rw [gather_fst_eq_map]
    exact hinl_post
  have hstateW : (pipelineCollected (pre ++ .raises ttl url m :: post) d ds
      silent).2
      = emitTerminal silent ("Ошибка при обработке ленты: " ++ m)
          (gatherTasks (parse_date_argument d).1 (parse_date_argument d).2
            silent post
            (gatherTasks (parse_date_argument d).1 (parse_date_argument d).2
              silent pre
              (preGatherState (pre ++ .raises ttl url m :: post) ds
                silent)).2).2 := by
    unfold pipelineCollected pipelineGathered
    rw [gather_raises_middle]
    exact (collect_raises_middle silent _ _ m [] _ hinlW1 hinlW2).2
  have hstateO : (pipelineCollected (pre ++ post) d ds silent).2
      = (gatherTasks (parse_date_argument d).1 (parse_date_argument d).2
          silent post
          (gatherTasks (parse_date_argument d).1 (parse_date_argument d).2
            silent pre (preGatherState (pre ++ post) ds silent)).2).2 := by
    unfold pipelineCollected pipelineGathered
    rw [gather_append]
    apply collect_all_inl_state
    intro r hr
    rcases List.mem_append.1 hr with h | h
    · rw [gather_fst_eq_map] at h
      exact hinl_pre r h
    · rw [gather_fst_eq_map] at h
      exact hinl_post r h
  have hgatherEL : ∀ st₀ : RunState, st₀.errorsList = [] →
      (gatherTasks (parse_date_argument d).1 (parse_date_argument d).2
        silent post
        (gatherTasks (parse_date_argument d).1 (parse_date_argument d).2
          silent pre st₀).2).2.errorsList
      = (gatherTasks (parse_date_argument d).1 (parse_date_argument d).2
          silent pre initState).2.errorsList
        ++ (gatherTasks (parse_date_argument d).1 (parse_date_argument d).2
            silent post initState).2.errorsList := by
    intro st₀ h₀
    rw [gather_errorsList_append _ _ silent post]
    rw [gather_errorsList_append _ _ silent pre st₀]
    rw [h₀]
    simp
  refine ⟨?_, ?_, ?_⟩
  · rw [read_posts_for_date_eq, read_posts_for_date_eq]
    show sortedPosts _ d ds silent = sortedPosts _ d ds silent
    unfold sortedPosts
    rw [hposts]
  · intro hs
    subst hs
    rw [read_posts_for_date_eq, read_posts_for_date_eq]
    show (renderReport _ ds true md _).errorsList
      = (renderReport _ ds true md _).errorsList ++ _
    rw [renderReport_errorsList, renderReport_errorsList, hstateW, hstateO]
    rw [emitTerminal_true_eq]
    show (gatherTasks _ _ true post _).2.errorsList ++ _
      = (gatherTasks _ _ true post _).2.errorsList ++ _
    rw [hgatherEL _ (preGatherState_errorsList _ ds true),
        hgatherEL _ (preGatherState_errorsList _ ds true)]
  · intro hs
    subst hs
    constructor
    · rw [read_posts_for_date_eq]
      show (renderReport _ ds false md _).errorsList = []
      rw [renderReport_errorsList, hstateW, emitTerminal_false_eq]
      show (gatherTasks _ _ false post _).2.errorsList = []
      rw [gather_false_errorsList, gather_false_errorsList]
      exact preGatherState_errorsList _ ds false
    · rw [read_posts_for_date_eq]
      show _ ∈ (renderReport _ ds false md _).trace
      rw [hstateW]
      rcases renderReport_trace_shape
        (sortedPosts (pre ++ .raises ttl url m :: post) d ds false) ds false md
        (emitTerminal false ("Ошибка при обработке ленты: " ++ m) _)
        with ⟨outs, errs, htr, -, -⟩
      rw [htr, emitTerminal_false_eq]
      apply List.mem_append_left
      apply List.mem_append_left
      exact List.mem_append_right _ (List.mem_singleton_self _)

theorem exception_converted_per_feed_witness :
    (read_posts_for_date
        [taskA, FetchTask.raises "Лента X" "http://x" "boom"]
        0 "2025-01-15" true false).2.errorsList
      = (read_posts_for_date [taskA] 0 "2025-01-15" true false).2.errorsList
        ++ ["Ошибка при обработке ленты: " ++ "boom"] := by
  exact (exception_converted_per_feed [taskA] [] "Лента X" "http://x" "boom"
    0 "2025-01-15" true false
    (by intro t ht; simp at ht; subst ht; rfl)).2.1 rfl

/-- C6: the publication timestamp of a parsed entry is resolved by an
ordered preference — the `published` field when present and parseable,
otherwise the `updated` field — and an entry with neither parseable
timestamp is dropped silently: it contributes nothing to the result
and the success branch never records any error (the whole call returns
the filtered posts with the state unchanged except the request count). -/
theorem timestamp_resolution (e : Entry) (es : List Entry) (sd ed : Int)
    (ft : Option String) :
    (∀ t : Int, e.published_parsed = some t → resolvePublished e = some t)
      ∧ (e.published_parsed = none →
          resolvePublished e = e.updated_parsed)
      ∧ (resolvePublished e = none →
          entriesToPosts sd ed ft (e :: es) = entriesToPosts sd ed ft es)
      ∧ (∀ (b : Nat → AttemptResult) (u : String) (silent : Bool)
          (st : RunState) (ftl : Option String) (entries : List Entry),
          b 0 = AttemptResult.success ftl entries →
          get_feed_posts b u sd ed silent st
            = (entriesToPosts sd ed ftl entries,
               { st with requestsMade := st.requestsMade + 1 })) := by
  refine ⟨?_, ?_, ?_, ?_⟩
  · intro t h
    unfold resolvePublished
    rw [h]
  · intro h
    unfold resolvePublished
    rw [h]
  · intro h
    have hnone : entryWindowPost sd ed ft e = none := by
      unfold entryWindowPost
      rw [h]
    unfold entriesToPosts
    simp [List.filterMap_cons, hnone]
  · intro b u silent st ftl entries h
    simp [get_feed_posts, fetchLoop, h]

theorem timestamp_resolution_witness :
    resolvePublished entryA = some 100
      ∧ entriesToPosts 0 86400 (some "Feed A") (entryNoDate :: [entryA])
          = entriesToPosts 0 86400 (some "Feed A") [entryA]
      ∧ get_feed_posts (fun _ => .success (some "Feed A") [entryA])
          "http://a" 0 86400 false initState
          = (entriesToPosts 0 86400 (some "Feed A") [entryA],
             { initState with requestsMade := initState.requestsMade + 1 }) := by
  refine ⟨?_, ?_, ?_⟩
  · exact (timestamp_resolution entryA [] 0 86400 (some "Feed A")).1 100 rfl
  · exact (timestamp_resolution entryNoDate [entryA] 0 86400
      (some "Feed A")).2.2.1 rfl
  · exact (timestamp_resolution entryA [] 0 86400 (some "Feed A")).2.2.2
      (fun _ => .success (some "Feed A") [entryA]) "http://a" false initState
      (some "Feed A") [entryA] rfl

/-- C7: whenever the merged post sequence of a run is empty — including
runs where every feed failed — the renderer emits an explicit
no-posts-found message rather than an empty body, in both the markdown
mode (whose empty-report text states zero posts and that none were
found) and the plain-text mode. -/
theorem empty_report_message (tasks : List FetchTask) (d : Int) (ds : String)
    (silent md : Bool)
    (h : (read_posts_for_date tasks d ds silent md).1 = []) :
    (md = true →
        OutEvent.out (format_posts_markdown [] ds)
            ∈ (read_posts_for_date tasks d ds silent md).2.trace
          ∧ format_posts_markdown [] ds
              = "## Посты за " ++ ds
                ++ "\n\nВсего постов: 0\n\nПосты за указанную дату не найдены.")
      ∧ (md = false →
          OutEvent.out "Посты за указанную дату не найдены."
            ∈ (read_posts_for_date tasks d ds silent md).2.trace) := by
  have hs : sortedPosts tasks d ds silent = [] := by
    rw [read_posts_for_date_eq] at h
    exact h
  constructor
  · intro hmd
    subst hmd
    constructor
    · rw [read_posts_for_date_eq]
      show _ ∈ (renderReport (sortedPosts tasks d ds silent) ds silent true _).trace
      rw [hs]
      unfold renderReport
      rw [if_pos rfl]
      rcases errorsEpilogue_trace_shape silent
        { (pipelineCollected tasks d ds silent).2 with
          trace := (pipelineCollected tasks d ds silent).2.trace
            ++ [.out (format_posts_markdown [] ds)] } with ⟨errs, htr, -⟩
      rw [htr]
      apply List.mem_append_left
      exact List.mem_append_right _ (List.mem_singleton_self _)
    · rfl
  · intro hmd
    subst hmd
    rw [read_posts_for_date_eq]
    show _ ∈ (renderReport (sortedPosts tasks d ds silent) ds silent false _).trace
    rw [hs]
    unfold renderReport
    rw [if_neg (show ¬(false = true) by simp)]
    rw [if_pos (show ([] : List Post).isEmpty = true from rfl)]
    rcases errorsEpilogue_trace_shape silent
      { (if silent then (pipelineCollected tasks d ds silent).2 else
          { (pipelineCollected tasks d ds silent).2 with
            trace := (pipelineCollected tasks d ds silent).2.trace
              ++ [.out ("\nНайдено " ++ toString ([] : List Post).length
                    ++ " постов за " ++ ds ++ ":"), .out equalsLine] }) with
        trace := (if silent then (pipelineCollected tasks d ds silent).2 else
          { (pipelineCollected tasks d ds silent).2 with
            trace := (pipelineCollected tasks d ds silent).2.trace
              ++ [.out ("\nНайдено " ++ toString ([] : List Post).length
                    ++ " постов за " ++ ds ++ ":"), .out equalsLine] }).trace
          ++ [.out "Посты за указанную дату не найдены."] }
      with ⟨errs, htr, -⟩
    rw [htr]
    apply List.mem_append_left
    exact List.mem_append_right _ (List.mem_singleton_self _)

theorem empty_report_message_witness :
    (read_posts_for_date [taskB404] 0 "2025-01-15" false false).1 = []
      ∧ OutEvent.out "Посты за указанную дату не найдены."
          ∈ (read_posts_for_date [taskB404] 0 "2025-01-15" false false).2.trace := by
  have h : (read_posts_for_date [taskB404] 0 "2025-01-15" false false).1
      = [] := by
    rw [read_posts_for_date_eq]
    show sortedPosts [taskB404] 0 "2025-01-15" false = []
    unfold sortedPosts
    rw [show mergedPosts [taskB404] 0 "2025-01-15" false = [] from by decide]
    simp
  exact ⟨h,
    (empty_report_message [taskB404] 0 "2025-01-15" false false h).2 rfl⟩

/-- C8: in the markdown renderer, a post's description is rendered from
its HTML-tag-cleaned form: unmodified (no ellipsis) when the cleaned
form is at most 300 characters, and truncated to exactly the first 300
characters plus a three-character ellipsis (303 characters in all) when
the cleaned form exceeds the cap; the rendered description never
exceeds 303 characters, and a post with a non-empty description renders
with exactly this processed description in its block. -/
theorem markdown_description_cap (desc : String) :
    ((stripHtmlTags desc).length ≤ 300 →
        truncatedDescription desc = stripHtmlTags desc)
      ∧ (300 < (stripHtmlTags desc).length →
          truncatedDescription desc
              = String.mk ((stripHtmlTags desc).toList.take 300) ++ "..."
            ∧ (truncatedDescription desc).length = 303)
      ∧ (truncatedDescription desc).length ≤ 303
      ∧ (∀ post : Post, post.description ≠ "" →
          renderPostMarkdown post
            = "### " ++ post.title ++ " (" ++ post.feed_title ++ ")\n\n"
              ++ (if post.link ≠ "" then "🔗 " ++ post.link ++ "\n\n" else "")
              ++ ("💬 " ++ truncatedDescription post.description ++ "\n\n")
              ++ "---\n\n") := by
  have hmk : (String.mk ((stripHtmlTags desc).toList.take 300)).length
      = min 300 (stripHtmlTags desc).length := by
    show ((stripHtmlTags desc).toList.take 300).length = _
    rw [List.length_take]
    rfl
  have hdots : ("..." : String).length = 3 := rfl
  refine ⟨?_, ?_, ?_, ?_⟩
  · intro h
    simp only [truncatedDescription]
    rw [if_neg (by omega)]
  · intro h
    refine ⟨?_, ?_⟩
    · simp only [truncatedDescription]
      rw [if_pos h]
    · simp only [truncatedDescription]
      rw [if_pos h, String.length_append, hmk, hdots]
      omega
  · by_cases hc : 300 < (stripHtmlTags desc).length
    · simp only [truncatedDescription]
      rw [if_pos hc, String.length_append, hmk, hdots]
      omega
    · simp only [truncatedDescription]
      rw [if_neg hc]
      omega
  · intro post hd
    simp only [renderPostMarkdown, if_pos hd]

theorem markdown_description_cap_witness :
    (stripHtmlTags "<b>Описание</b>").length ≤ 300
      ∧ truncatedDescription "<b>Описание</b>"
          = stripHtmlTags "<b>Описание</b>"
      ∧ stripHtmlTags "<b>Описание</b>" = "Описание"
      ∧ renderPostMarkdown postA
          = "### " ++ postA.title ++ " (" ++ postA.feed_title ++ ")\n\n"
            ++ (if postA.link ≠ "" then "🔗 " ++ postA.link ++ "\n\n" else "")
            ++ ("💬 " ++ truncatedDescription postA.description ++ "\n\n")
            ++ "---\n\n" := by
  refine ⟨by decide, ?_, by decide, ?_⟩
  · exact (markdown_description_cap "<b>Описание</b>").1 (by decide)
  · exact (markdown_description_cap "anything").2.2.2 postA (by decide)

theorem demo_sortedPosts :
    sortedPosts [taskB404, taskA] 0 "2025-01-15" false = [postA] := by
  unfold sortedPosts
  rw [show mergedPosts [taskB404, taskA] 0 "2025-01-15" false = [postA]
    from by decide]
  simp

/-- C9 counterexample: in verbose (non-silent) plain mode, a failing
feed's error is written to the error stream at fetch time, before the
listing of successful entries is printed: in the concrete run with a
404 feed and a successful feed, the error event (index 5 of the output
trace) precedes the successful entry's listing line (index 9), so it is
false that per-feed errors are always reported after the main listing
in both verbosity modes. -/
theorem errors_after_listing_counterexample :
    ¬ (∀ (i j : Nat) (em om : String),
        (read_posts_for_date [taskB404, taskA] 0 "2025-01-15" false
            false).2.trace[i]? = some (OutEvent.err em) →
        (read_posts_for_date [taskB404, taskA] 0 "2025-01-15" false
            false).2.trace[j]? = some (OutEvent.out om) →
        OutEvent.out om ∈ renderPostPlain postA →
        j < i) := by
  intro hcl
  have htr : (read_posts_for_date [taskB404, taskA] 0 "2025-01-15" false
      false).2.trace
      = (renderReport [postA] "2025-01-15" false false
          (pipelineCollected [taskB404, taskA] 0 "2025-01-15" false).2).trace := by
    rw [read_posts_for_date_eq]
    show (renderReport (sortedPosts [taskB404, taskA] 0 "2025-01-15" false)
      "2025-01-15" false false _).trace = _
    rw [demo_sortedPosts]
  have h1 : (read_posts_for_date [taskB404, taskA] 0 "2025-01-15" false
      false).2.trace[5]?
      = some (OutEvent.err "Лента не найдена http://b (404). Пропускаем.") := by
    rw [htr]
    decide
  have h2 : (read_posts_for_date [taskB404, taskA] 0 "2025-01-15" false
      false).2.trace[9]? = some (OutEvent.out "  Пост A") := by
    rw [htr]
    decide
  have h3 : OutEvent.out "  Пост A" ∈ renderPostPlain postA := by decide
  have := hcl 5 9 _ _ h1 h2 h3
  omega

theorem renderReport_plain_nonempty_shape (posts : List Post) (ds : String)
    (s : Bool) (st : RunState) (hne : posts ≠ []) :
    ∃ pre epi, (renderReport posts ds s false st).trace
        = pre ++ (posts.map renderPostPlain).flatten ++ epi
      ∧ ∀ ev ∈ epi, ∃ m, ev = OutEvent.err m := by
  unfold renderReport
  rw [if_neg (show ¬(false = true) by simp)]
  rw [if_neg (show ¬(posts.isEmpty = true)
    from fun hh => hne (List.isEmpty_iff.1 hh))]
  rcases errorsEpilogue_trace_shape s
    { (if s then st else
        { st with trace := st.trace
            ++ [.out ("\nНайдено " ++ toString posts.length ++ " постов за "
                  ++ ds ++ ":"), .out equalsLine] }) with
      trace := (if s then st else
        { st with trace := st.trace
            ++ [.out ("\nНайдено " ++ toString posts.length ++ " постов за "
                  ++ ds ++ ":"), .out equalsLine] }).trace
        ++ (posts.map renderPostPlain).flatten }
    with ⟨errs, htr, herrs⟩
  refine ⟨(if s then st else
      { st with trace := st.trace
          ++ [.out ("\nНайдено " ++ toString posts.length ++ " постов за "
                ++ ds ++ ":"), .out equalsLine] }).trace, errs, ?_, herrs⟩
  rw [htr]

theorem renderReport_markdown_mem (posts : List Post) (ds : String)
    (s : Bool) (st : RunState) :
    OutEvent.out (format_posts_markdown posts ds)
      ∈ (renderReport posts ds s true st).trace := by
  unfold renderReport
  rw [if_pos rfl]
  rcases errorsEpilogue_trace_shape s
    { st with trace := st.trace ++ [.out (format_posts_markdown posts ds)] }
    with ⟨errs, htr, -⟩
  rw [htr]
  apply List.mem_append_left
  exact List.mem_append_right _ (List.mem_singleton_self _)

/-- C9 amended: error output never appears inside the stdout report and
never suppresses the successful portion — in silent mode the whole
output trace is stdout lines followed by the error summary (errors come
after the entire report), and in plain mode the full listing of all
successful entries appears contiguously in the trace with only
error-stream events after it, while in verbose mode per-feed errors are
emitted to the error stream as fetching proceeds, which may be before
the listing; in markdown mode the complete formatted report is always
printed regardless of errors. -/
theorem errors_separated_report_complete (tasks : List FetchTask) (d : Int)
    (ds : String) (silent md : Bool) :
    (silent = true →
        ∃ outs errs,
          (read_posts_for_date tasks d ds true md).2.trace = outs ++ errs
            ∧ (∀ ev ∈ outs, ∃ s, ev = OutEvent.out s)
            ∧ (∀ ev ∈ errs, ∃ s, ev = OutEvent.err s))
      ∧ (md = false →
          (read_posts_for_date tasks d ds silent false).1 ≠ [] →
          ∃ pre epi,
            (read_posts_for_date tasks d ds silent false).2.trace
                = pre ++ ((read_posts_for_date tasks d ds silent false).1.map
                    renderPostPlain).flatten ++ epi
              ∧ ∀ ev ∈ epi, ∃ s, ev = OutEvent.err s)
      ∧ (md = true →
          OutEvent.out (format_posts_markdown
              (read_posts_for_date tasks d ds silent true).1 ds)
            ∈ (read_posts_for_date tasks d ds silent true).2.trace) := by
  refine ⟨?_, ?_, ?_⟩
  · intro hs
    have hctrace : (pipelineCollected tasks d ds true).2.trace = [] := by
      unfold pipelineCollected
      rw [collect_true_trace]
      unfold pipelineGathered
      rw [gather_true_trace]
      rfl
    rcases renderReport_trace_shape (sortedPosts tasks d ds true) ds true md
      (pipelineCollected tasks d ds true).2 with ⟨outs, errs, htr, ho, he⟩
    refine ⟨outs, errs, ?_, ho, he⟩
    rw [read_posts_for_date_eq]
    show (renderReport (sortedPosts tasks d ds true) ds true md
      (pipelineCollected tasks d ds true).2).trace = outs ++ errs
    rw [htr, hctrace]
    simp
  · intro hm hne
    subst hm
    rw [read_posts_for_date_eq] at hne ⊢
    exact renderReport_plain_nonempty_shape (sortedPosts tasks d ds silent)
      ds silent (pipelineCollected tasks d ds silent).2 hne
  · intro hm
    subst hm
    rw [read_posts_for_date_eq]
    exact renderReport_markdown_mem (sortedPosts tasks d ds silent) ds silent
      (pipelineCollected tasks d ds silent).2

theorem errors_separated_report_complete_witness :
    OutEvent.out (format_posts_markdown
        (read_posts_for_date [taskB404, taskA] 0 "2025-01-15" false true).1
        "2025-01-15")
      ∈ (read_posts_for_date [taskB404, taskA] 0 "2025-01-15" false
          true).2.trace :=
  (errors_separated_report_complete [taskB404, taskA] 0 "2025-01-15"
    false true).2.2 rfl

/-- C10: the shared collected-errors list is appended to only in silent
mode: a non-silent run always finishes with an empty collected-errors
list no matter which feeds fail or how, while in a failure branch
(HTTP status error shown representatively) silent mode appends exactly
the error message to the list and non-silent mode leaves the list
unchanged and writes the message to the error stream instead. -/
theorem errors_list_only_in_silent (tasks : List FetchTask) (d : Int)
    (ds : String) (md : Bool) :
    (read_posts_for_date tasks d ds false md).2.errorsList = []
      ∧ (∀ (b : Nat → AttemptResult) (u : String) (sd ed : Int)
          (st : RunState) (code : Nat),
          b 0 = AttemptResult.httpStatusError code →
          (get_feed_posts b u sd ed true st).2.errorsList
              = st.errorsList ++ [httpErrorMessage u code]
            ∧ (get_feed_posts b u sd ed false st).2.errorsList
              = st.errorsList
            ∧ (get_feed_posts b u sd ed false st).2.trace
              = st.trace ++ [OutEvent.err (httpErrorMessage u code)]) := by
  constructor
  · rw [read_posts_for_date_eq]
    show (renderReport _ ds false md _).errorsList = []
    rw [renderReport_errorsList]
    unfold pipelineCollected
    rw [collect_false_errorsList]
    unfold pipelineGathered
    rw [gather_false_errorsList]
    exact preGatherState_errorsList tasks ds false
  · intro b u sd ed st code h0
    refine ⟨?_, ?_, ?_⟩
    · simp [get_feed_posts, fetchLoop, h0]
    · simp [get_feed_posts, fetchLoop, h0]
    · simp [get_feed_posts, fetchLoop, h0]

theorem errors_list_only_in_silent_witness :
    (read_posts_for_date [taskB404, taskA] 0 "2025-01-15" false
        false).2.errorsList = []
      ∧ (get_feed_posts beh429 "http://b" 0 86400 true
          initState).2.errorsList
          = initState.errorsList ++ [httpErrorMessage "http://b" 429]
      ∧ (get_feed_posts beh429 "http://b" 0 86400 false
          initState).2.errorsList = initState.errorsList := by
  have h := errors_list_only_in_silent [taskB404, taskA] 0 "2025-01-15" false
  have h2 := h.2 beh429 "http://b" 0 86400 initState 429 rfl
  exact ⟨h.1, h2.1, h2.2.1⟩
